import Mathlib

/-!
Verification of the Biometrics-Attendance time-aggregation engine
(backend/services/time_calculator.py, backend/config.py,
backend/services/report_generator.py) against its specification.

Modelling conventions:
- A time of day is its minute count since midnight (a natural number),
  matching TimeCalculator._time_to_minutes which computes hour * 60 + minute.
- A calendar date is its proleptic-Gregorian ordinal (Python date.toordinal);
  date.weekday() with Monday = 0 is then (ordinal + 6) % 7, since ordinal 1
  (0001-01-01) is a Monday.
- Python ints are ℤ where subtraction occurs, ℕ for counts and times;
  percentages (Python floats holding exact division results) are ℚ.
- Python dicts iterated in insertion order are lists of key/value pairs;
  Python sorted is List.insertionSort.
-/

/-- Daily attendance status, mirroring models.attendance.AttendanceStatus. -/
inductive Status where
  | PRESENT
  | ABSENT
  | PARTIAL
deriving DecidableEq, Repr

/-- Weekly compliance status, mirroring models.attendance.ComplianceStatus. -/
inductive Color where
  | RED
  | AMBER
  | GREEN
deriving DecidableEq, Repr

/-- One parsed punch record restricted to the fields _calculate_day_summary
reads: optional in-time, out-time (minutes since midnight), optional
device-reported total duration (minutes), optional free-text remark. -/
structure PunchRecord where
  in_time : Option ℕ
  out_time : Option ℕ
  total_time : Option ℕ
  remark : Option String
deriving DecidableEq, Repr

/-- One display pair produced by TimeCalculator._create_pairs: the in-time,
the matched out-time if any, and the duration in minutes if matched
(the Python code renders the duration as a string; formatting is
presentation and out of scope). -/
structure DisplayPair where
  in_t : Option ℕ
  out_t : Option ℕ
  duration : Option ℤ
deriving DecidableEq, Repr

/-- The dictionary returned by TimeCalculator._calculate_day_summary. -/
structure DailySummary where
  total_office_minutes : ℤ
  status : Status
  first_in : Option ℕ
  last_out : Option ℕ
  in_out_pairs : List DisplayPair
  remark : Option String
deriving DecidableEq, Repr

/-- The dictionary produced per employee by
TimeCalculator.calculate_weekly_summary.  compliance_percentage stores
round(compliance, 2) as in the source; status is computed from the
unrounded value. -/
structure WeeklySummary where
  week_start : ℕ
  week_end : ℕ
  total_office_minutes : ℤ
  wfo_days : ℕ
  expected_minutes : ℕ
  compliance_percentage : ℚ
  status : Color
deriving DecidableEq, Repr

/-- TimeCalculator._time_to_minutes: None maps to 0, a time to its minute
count (which is the time itself in this model). -/
def time_to_minutes : Option ℕ → ℕ
  | none => 0
  | some v => v

/-- The inner loop of TimeCalculator._calculate_from_pairs for one IN time:
scan the sorted OUT list (paired with used flags) in order, skip used
entries, and at the first unused OUT strictly after the IN compute the
duration; if it is positive, add it, mark the OUT used and stop, otherwise
keep scanning without marking.  Returns the duration contributed and the
updated flag list. -/
def scan_outs (in_m : ℕ) : List (ℕ × Bool) → ℤ × List (ℕ × Bool)
  | [] => (0, [])
  | (o, u) :: rest =>
    if u then
      ((scan_outs in_m rest).1, (o, u) :: (scan_outs in_m rest).2)
    else if in_m < o then
      if 0 < (o : ℤ) - (in_m : ℤ) then
        ((o : ℤ) - (in_m : ℤ), (o, true) :: rest)
      else
        ((scan_outs in_m rest).1, (o, u) :: (scan_outs in_m rest).2)
    else
      ((scan_outs in_m rest).1, (o, u) :: (scan_outs in_m rest).2)

/-- TimeCalculator._calculate_from_pairs: return 0 when either list is
empty; otherwise sort both lists ascending and fold the IN times through
scan_outs, accumulating the total minutes. -/
def calculate_from_pairs (in_times out_times : List ℕ) : ℤ :=
  if in_times = [] ∨ out_times = [] then 0
  else
    ((in_times.insertionSort (· ≤ ·)).foldl
      (fun acc i => (acc.1 + (scan_outs i acc.2).1, (scan_outs i acc.2).2))
      ((0 : ℤ), (out_times.insertionSort (· ≤ ·)).map (fun o => (o, false)))).1

/-- The inner loop of TimeCalculator._create_pairs for one IN time: bind the
first unused OUT strictly after the IN (no positivity guard here), mark it
used; return the match, if any, and the updated flag list. -/
def scan_outs_display (in_m : ℕ) : List (ℕ × Bool) → Option (ℕ × ℤ) × List (ℕ × Bool)
  | [] => (none, [])
  | (o, u) :: rest =>
    if u then
      ((scan_outs_display in_m rest).1, (o, u) :: (scan_outs_display in_m rest).2)
    else if in_m < o then
      (some (o, (o : ℤ) - (in_m : ℤ)), (o, true) :: rest)
    else
      ((scan_outs_display in_m rest).1, (o, u) :: (scan_outs_display in_m rest).2)

/-- TimeCalculator._create_pairs: for each IN time in ascending order emit a
display pair, filling out-time and duration from the first unused later
OUT if one exists. -/
def create_pairs (in_times out_times : List ℕ) : List DisplayPair :=
  ((in_times.insertionSort (· ≤ ·)).foldl
    (fun acc i =>
      (acc.1 ++ [⟨some i, ((scan_outs_display i acc.2).1).map (fun p => p.1),
                 ((scan_outs_display i acc.2).1).map (fun p => p.2)⟩],
       (scan_outs_display i acc.2).2))
    (([] : List DisplayPair), (out_times.insertionSort (· ≤ ·)).map (fun o => (o, false)))).1

/-- The total_from_device accumulation in _calculate_day_summary: the first
non-empty device total wins, later ones are ignored. -/
def device_total (day_records : List PunchRecord) : Option ℕ :=
  day_records.foldl
    (fun acc r => match acc, r.total_time with
      | none, some t => some t
      | _, _ => acc)
    none

/-- The remark accumulation in _calculate_day_summary: each non-empty remark
overwrites the previous one, so the last non-empty remark wins. -/
def last_remark (day_records : List PunchRecord) : Option String :=
  day_records.foldl
    (fun acc r => match r.remark with
      | some s => some s
      | none => acc)
    none

/-- TimeCalculator._calculate_day_summary: collect IN/OUT times, take the
first device total and last remark, use the device total verbatim when
present and the pairing computation otherwise, apply the strict 6-hour
(360-minute) rule for the status, and record min IN, max OUT and the
display pairs. -/
def calculate_day_summary (day_records : List PunchRecord) : DailySummary :=
  let in_times := day_records.filterMap (fun r => r.in_time)
  let out_times := day_records.filterMap (fun r => r.out_time)
  let total_from_device := device_total day_records
  let total_minutes : ℤ :=
    match total_from_device with
    | some _ => (time_to_minutes total_from_device : ℤ)
    | none => calculate_from_pairs in_times out_times
  { total_office_minutes := total_minutes
    status := if 360 ≤ total_minutes then Status.PRESENT else Status.ABSENT
    first_in := in_times.min?
    last_out := out_times.max?
    in_out_pairs := create_pairs in_times out_times
    remark := last_remark day_records }

/-- config.get_status_color (config.py), parameterised by the configured
settings.THRESHOLD_RED and settings.THRESHOLD_AMBER (defaults 70 and 90):
RED below the red threshold, AMBER up to and including the amber
threshold, GREEN above it. -/
def config_get_status_color (red amber p : ℚ) : Color :=
  if p < red then Color.RED
  else if p ≤ amber then Color.AMBER
  else Color.GREEN

/-- TimeCalculator._get_status_color: the hard-coded 70/90 copy used by the
weekly aggregator. -/
def get_status_color (p : ℚ) : Color :=
  if p < 70 then Color.RED
  else if p ≤ 90 then Color.AMBER
  else Color.GREEN

/-- The per-day status colouring inlined in
ReportGenerator.get_individual_report (report_generator.py): GREEN from 90
upward, AMBER from 70 upward, RED below. -/
def daily_status_color (p : ℚ) : Color :=
  if 90 ≤ p then Color.GREEN
  else if 70 ≤ p then Color.AMBER
  else Color.RED

/-- Rounding of a rational to two decimal places, modelling Python
round(x, 2) on the compliance value (Python rounds ties to even on binary
floats; this model rounds ties up, which matches it at every non-tie). -/
def round2 (q : ℚ) : ℚ := (round (q * 100) : ℤ) / 100

/-- The per-employee accumulation loop of
TimeCalculator.calculate_weekly_summary: fold over the employee's
(date, DailySummary) pairs, summing total_office_minutes and counting
PRESENT/PARTIAL days for dates inside [week_start, week_end]. -/
def week_totals (days : List (ℕ × DailySummary)) (week_start week_end : ℕ) : ℤ × ℕ :=
  days.foldl
    (fun acc d =>
      if week_start ≤ d.1 ∧ d.1 ≤ week_end then
        (acc.1 + d.2.total_office_minutes,
         if d.2.status = Status.PRESENT ∨ d.2.status = Status.PARTIAL then
           acc.2 + 1
         else acc.2)
      else acc)
    (0, 0)

/-- The unrounded compliance value computed in
TimeCalculator.calculate_weekly_summary: (total / expected) * 100 when
expected minutes are positive, otherwise 0. -/
def weekly_compliance (days : List (ℕ × DailySummary)) (week_start week_end ehpd : ℕ) : ℚ :=
  let t := week_totals days week_start week_end
  let expected := t.2 * ehpd * 60
  if 0 < expected then ((t.1 : ℚ) / (expected : ℚ)) * 100 else 0

/-- The WeeklySummary built for one employee by
TimeCalculator.calculate_weekly_summary, with ehpd the calculator's
expected_hours_per_day. -/
def calculate_weekly_summary_emp (days : List (ℕ × DailySummary))
    (week_start week_end ehpd : ℕ) : WeeklySummary :=
  let t := week_totals days week_start week_end
  { week_start := week_start
    week_end := week_end
    total_office_minutes := t.1
    wfo_days := t.2
    expected_minutes := t.2 * ehpd * 60
    compliance_percentage := round2 (weekly_compliance days week_start week_end ehpd)
    status := get_status_color (weekly_compliance days week_start week_end ehpd) }

/-- TimeCalculator.calculate_weekly_summary: one WeeklySummary per employee
in the daily-summaries map (modelled as an association list). -/
def calculate_weekly_summary (emps : List (String × List (ℕ × DailySummary)))
    (week_start week_end ehpd : ℕ) : List (String × WeeklySummary) :=
  emps.map (fun e => (e.1, calculate_weekly_summary_emp e.2 week_start week_end ehpd))

/-- Python date.weekday() on an ordinal: Monday is 0; ordinal 1
(0001-01-01) is a Monday. -/
def weekday (o : ℕ) : ℕ := (o + 6) % 7

/-- TimeCalculator.get_week_bounds: the Monday and Sunday of the week
containing the date. -/
def get_week_bounds (o : ℕ) : ℕ × ℕ := (o - weekday o, o - weekday o + 6)

/-- The tuple order Python sorted uses on (week_start, week_end) pairs. -/
def pair_le (a b : ℕ × ℕ) : Prop := a.1 < b.1 ∨ (a.1 = b.1 ∧ a.2 ≤ b.2)

instance : DecidableRel pair_le := fun a b =>
  inferInstanceAs (Decidable (a.1 < b.1 ∨ (a.1 = b.1 ∧ a.2 ≤ b.2)))

instance : IsTrans (ℕ × ℕ) pair_le where
  trans a b c hab hbc := by
    rcases hab with h | ⟨h1, h2⟩ <;> rcases hbc with h' | ⟨h1', h2'⟩ <;>
      unfold pair_le <;> omega

instance : IsTotal (ℕ × ℕ) pair_le where
  total a b := by unfold pair_le; omega

instance : IsAntisymm (ℕ × ℕ) pair_le where
  antisymm a b hab hba := by
    rcases hab with h | ⟨h1, h2⟩ <;> rcases hba with h' | ⟨h1', h2'⟩ <;>
      [omega; omega; omega; exact Prod.ext h1 (le_antisymm h2 h2')]

/-- TimeCalculator.get_all_weeks: the distinct week bounds of the given
dates, as a sorted list (Python builds a set and sorts it; here the
duplicates are removed and the result sorted). -/
def get_all_weeks (dates : List ℕ) : List (ℕ × ℕ) :=
  ((dates.map get_week_bounds).dedup).insertionSort pair_le

/-- Proleptic-Gregorian leap-year test. -/
def is_leap (y : ℕ) : Bool := (y % 4 == 0 && y % 100 != 0) || y % 400 == 0

/-- Days before the first of month m in year y (m counted from 1). -/
def days_before_month (y m : ℕ) : ℕ :=
  [0, 31, 59, 90, 120, 151, 181, 212, 243, 273, 304, 334].getD (m - 1) 0 +
    (if 2 < m ∧ is_leap y then 1 else 0)

/-- Python date(y, m, d).toordinal(): days since 0000-12-31 in the
proleptic Gregorian calendar. -/
def to_ordinal (y m d : ℕ) : ℕ :=
  365 * (y - 1) + (y - 1) / 4 - (y - 1) / 100 + (y - 1) / 400 +
    days_before_month y m + d

/-- The pairing rule exactly as the specification words it: bind the IN to
the earliest still-available OUT strictly greater than it, removing that
OUT from the available list. -/
def extract_first_greater (in_m : ℕ) : List ℕ → Option (ℕ × List ℕ)
  | [] => none
  | o :: rest =>
    if in_m < o then some (o, rest)
    else
      match extract_first_greater in_m rest with
      | some (o', rest') => some (o', o :: rest')
      | none => none

/-- The specification's greedy matching over already-sorted lists: each IN
in order takes the earliest available later OUT; an IN with none is
unmatched. -/
def greedy_pairs : List ℕ → List ℕ → List (ℕ × ℕ)
  | [], _ => []
  | i :: is, outs =>
    match extract_first_greater i outs with
    | some (o, outs') => (i, o) :: greedy_pairs is outs'
    | none => greedy_pairs is outs

/-- The specification's total office minutes: sort both lists ascending,
greedily match, and sum out minus in over the matched pairs. -/
def greedy_total (in_times out_times : List ℕ) : ℤ :=
  ((greedy_pairs (in_times.insertionSort (· ≤ ·)) (out_times.insertionSort (· ≤ ·))).map
    (fun p => (p.2 : ℤ) - (p.1 : ℤ))).sum

/-! Helper lemmas relating the used-flag scan of the implementation to the
removal-based extraction of the specification. -/

/-- The OUT times of a flag list that are still available (not used). -/
def unflag (l : List (ℕ × Bool)) : List ℕ :=
  l.filterMap (fun p => if p.2 then none else some p.1)

lemma unflag_nil : unflag [] = [] := rfl

lemma unflag_cons_used (o : ℕ) (rest : List (ℕ × Bool)) :
    unflag ((o, true) :: rest) = unflag rest := by
  simp [unflag]

lemma unflag_cons_free (o : ℕ) (rest : List (ℕ × Bool)) :
    unflag ((o, false) :: rest) = o :: unflag rest := by
  simp [unflag]

lemma unflag_map_false (l : List ℕ) :
    unflag (l.map (fun o => (o, false))) = l := by
  induction l with
  | nil => rfl
  | cons a t ih => simp [unflag] at ih ⊢; exact ih

lemma scan_outs_none (in_m : ℕ) (l : List (ℕ × Bool))
    (h : extract_first_greater in_m (unflag l) = none) :
    scan_outs in_m l = (0, l) := by
  induction l with
  | nil => rfl
  | cons p rest ih =>
    obtain ⟨o, u⟩ := p
    cases u with
    | true =>
      rw [unflag_cons_used] at h
      simp [scan_outs, ih h]
    | false =>
      rw [unflag_cons_free] at h
      unfold extract_first_greater at h
      by_cases hlt : in_m < o
      · simp [hlt] at h
      · simp only [hlt, if_false] at h
        have hrest : extract_first_greater in_m (unflag rest) = none := by
          cases hx : extract_first_greater in_m (unflag rest) with
          | none => rfl
          | some v => rw [hx] at h; cases v; simp at h
        simp [scan_outs, hlt, ih hrest]

lemma scan_outs_some (in_m : ℕ) (l : List (ℕ × Bool)) (o' : ℕ) (rest' : List ℕ)
    (h : extract_first_greater in_m (unflag l) = some (o', rest')) :
    (scan_outs in_m l).1 = (o' : ℤ) - (in_m : ℤ) ∧
      unflag (scan_outs in_m l).2 = rest' := by
  induction l generalizing o' rest' with
  | nil => simp [unflag_nil, extract_first_greater] at h
  | cons p rest ih =>
    obtain ⟨o, u⟩ := p
    cases u with
    | true =>
      rw [unflag_cons_used] at h
      obtain ⟨h1, h2⟩ := ih o' rest' h
      constructor
      · simpa [scan_outs] using h1
      · simpa [scan_outs, unflag_cons_used] using h2
    | false =>
      rw [unflag_cons_free] at h
      unfold extract_first_greater at h
      by_cases hlt : in_m < o
      · simp only [hlt, if_true] at h
        obtain ⟨ho, hrest⟩ := Prod.mk.injEq .. ▸ Option.some.injEq .. ▸ h
        have hpos : (0 : ℤ) < (o : ℤ) - (in_m : ℤ) := by
          omega
        subst ho hrest
        constructor
        · simp [scan_outs, hlt, hpos]
        · simp [scan_outs, hlt, hpos, unflag_cons_used]
      · simp only [hlt, if_false] at h
        cases hx : extract_first_greater in_m (unflag rest) with
        | none => rw [hx] at h; simp at h
        | some v =>
          obtain ⟨o2, rest2⟩ := v
          rw [hx] at h
          simp only [Option.some.injEq, Prod.mk.injEq] at h
          obtain ⟨ho, hrest⟩ := h
          obtain ⟨h1, h2⟩ := ih o2 rest2 hx
          subst ho
          constructor
          · simpa [scan_outs, hlt] using h1
          · rw [← hrest]
            simp [scan_outs, hlt, unflag_cons_free, h2]

lemma foldl_scan_eq_greedy (ins : List ℕ) :
    ∀ (l : List (ℕ × Bool)) (acc : ℤ),
      (ins.foldl (fun a i => (a.1 + (scan_outs i a.2).1, (scan_outs i a.2).2)) (acc, l)).1
        = acc + ((greedy_pairs ins (unflag l)).map (fun p => (p.2 : ℤ) - (p.1 : ℤ))).sum := by
  induction ins with
  | nil => intro l acc; simp [greedy_pairs]
  | cons i is ih =>
    intro l acc
    cases hx : extract_first_greater i (unflag l) with
    | none =>
      have hs := scan_outs_none i l hx
      simp only [List.foldl_cons, hs, greedy_pairs, hx]
      simpa using ih l (acc + 0)
    | some v =>
      obtain ⟨o, rest⟩ := v
      obtain ⟨h1, h2⟩ := scan_outs_some i l o rest hx
      simp only [List.foldl_cons, greedy_pairs, hx, List.map_cons, List.sum_cons]
      rw [ih (scan_outs i l).2 (acc + (scan_outs i l).1), h1, h2]
      ring

lemma greedy_pairs_nil_right (ins : List ℕ) : greedy_pairs ins [] = [] := by
  induction ins with
  | nil => rfl
  | cons i is ih => simp [greedy_pairs, extract_first_greater, ih]

/-- The implementation's pairing total equals the specification's greedy
pairing total on every pair of lists. -/
lemma calculate_from_pairs_eq_greedy_total (in_times out_times : List ℕ) :
    calculate_from_pairs in_times out_times = greedy_total in_times out_times := by
  unfold calculate_from_pairs greedy_total
  by_cases h : in_times = [] ∨ out_times = []
  · rcases h with h | h
    · subst h
      simp [List.insertionSort, greedy_pairs]
    · subst h
      simp [List.insertionSort, greedy_pairs_nil_right]
  · simp only [h, if_false]
    rw [foldl_scan_eq_greedy, unflag_map_false]
    simp

lemma extract_first_greater_lt (in_m : ℕ) (l : List ℕ) (o : ℕ) (rest : List ℕ)
    (h : extract_first_greater in_m l = some (o, rest)) : in_m < o := by
  induction l generalizing rest with
  | nil => simp [extract_first_greater] at h
  | cons a t ih =>
    unfold extract_first_greater at h
    by_cases hlt : in_m < a
    · simp only [hlt, if_true, Option.some.injEq, Prod.mk.injEq] at h
      omega
    · simp only [hlt, if_false] at h
      cases hx : extract_first_greater in_m t with
      | none => rw [hx] at h; simp at h
      | some v =>
        obtain ⟨o2, rest2⟩ := v
        rw [hx] at h
        simp only [Option.some.injEq, Prod.mk.injEq] at h
        obtain ⟨ho, -⟩ := h
        subst ho
        exact ih rest2 hx

lemma greedy_pairs_mem_lt (ins outs : List ℕ) (p : ℕ × ℕ)
    (hp : p ∈ greedy_pairs ins outs) : p.1 < p.2 := by
  induction ins generalizing outs with
  | nil => simp [greedy_pairs] at hp
  | cons i is ih =>
    unfold greedy_pairs at hp
    cases hx : extract_first_greater i outs with
    | none => rw [hx] at hp; exact ih outs hp
    | some v =>
      obtain ⟨o, rest⟩ := v
      rw [hx] at hp
      rcases List.mem_cons.mp hp with h | h
      · subst h; exact extract_first_greater_lt i outs o rest hx
      · exact ih rest h

/-! Helper lemmas for permutation invariance. -/

lemma insertionSort_perm_eq {l₁ l₂ : List ℕ} (h : l₁.Perm l₂) :
    l₁.insertionSort (· ≤ ·) = l₂.insertionSort (· ≤ ·) :=
  List.eq_of_perm_of_sorted
    (((List.perm_insertionSort _ l₁).trans h).trans (List.perm_insertionSort _ l₂).symm)
    (List.sorted_insertionSort _ l₁) (List.sorted_insertionSort _ l₂)

lemma min?_perm {l₁ l₂ : List ℕ} (h : l₁.Perm l₂) : l₁.min? = l₂.min? := by
  cases hx : l₁.min? with
  | none =>
    rw [List.min?_eq_none_iff] at hx
    subst hx
    rw [eq_comm, List.min?_eq_none_iff]
    exact h.symm.eq_nil
  | some a =>
    rw [List.min?_eq_some_iff'] at hx
    rw [eq_comm, List.min?_eq_some_iff']
    exact ⟨h.mem_iff.mp hx.1, fun b hb => hx.2 b (h.mem_iff.mpr hb)⟩

lemma max?_perm {l₁ l₂ : List ℕ} (h : l₁.Perm l₂) : l₁.max? = l₂.max? := by
  cases hx : l₁.max? with
  | none =>
    rw [List.max?_eq_none_iff] at hx
    subst hx
    rw [eq_comm, List.max?_eq_none_iff]
    exact h.symm.eq_nil
  | some a =>
    rw [List.max?_eq_some_iff'] at hx
    rw [eq_comm, List.max?_eq_some_iff']
    exact ⟨h.mem_iff.mp hx.1, fun b hb => hx.2 b (h.mem_iff.mpr hb)⟩

lemma calculate_from_pairs_perm {i₁ i₂ o₁ o₂ : List ℕ}
    (hi : i₁.Perm i₂) (ho : o₁.Perm o₂) :
    calculate_from_pairs i₁ o₁ = calculate_from_pairs i₂ o₂ := by
  unfold calculate_from_pairs
  have hie : i₁ = [] ↔ i₂ = [] := ⟨fun h => (h ▸ hi).symm.eq_nil, fun h => (h ▸ hi.symm).symm.eq_nil⟩
  have hoe : o₁ = [] ↔ o₂ = [] := ⟨fun h => (h ▸ ho).symm.eq_nil, fun h => (h ▸ ho.symm).symm.eq_nil⟩
  rw [insertionSort_perm_eq hi, insertionSort_perm_eq ho]
  by_cases h : i₂ = [] ∨ o₂ = []
  · simp only [hie, hoe, h, if_true]
  · simp only [hie, hoe, h, if_false]

lemma create_pairs_perm {i₁ i₂ o₁ o₂ : List ℕ}
    (hi : i₁.Perm i₂) (ho : o₁.Perm o₂) :
    create_pairs i₁ o₁ = create_pairs i₂ o₂ := by
  unfold create_pairs
  rw [insertionSort_perm_eq hi, insertionSort_perm_eq ho]

lemma device_total_keep (l : List PunchRecord) (a : ℕ) :
    l.foldl (fun acc r => match acc, r.total_time with
      | none, some t => some t
      | _, _ => acc) (some a) = some a := by
  induction l with
  | nil => rfl
  | cons r t ih => simpa using ih

lemma device_total_none_iff (l : List PunchRecord) :
    device_total l = none ↔ ∀ r ∈ l, r.total_time = none := by
  unfold device_total
  induction l with
  | nil => simp
  | cons r t ih =>
    cases hx : r.total_time with
    | none =>
      simp only [List.foldl_cons, hx]
      constructor
      · intro h s hs
        rcases List.mem_cons.mp hs with h' | h'
        · subst h'; exact hx
        · exact (ih.mp h) s h'
      · intro h
        exact ih.mpr (fun s hs => h s (List.mem_cons_of_mem r hs))
    | some v =>
      simp only [List.foldl_cons, hx, device_total_keep]
      constructor
      · intro h; simp at h
      · intro h
        have h2 := h r (List.mem_cons_self r t)
        rw [hx] at h2
        simp at h2

lemma device_total_some_mem (l : List PunchRecord) (a : ℕ) :
    ∀ acc : Option ℕ,
      l.foldl (fun acc r => match acc, r.total_time with
        | none, some t => some t
        | _, _ => acc) acc = some a →
      acc = some a ∨ ∃ r ∈ l, r.total_time = some a := by
  induction l with
  | nil => intro acc h; exact Or.inl h
  | cons r t ih =>
    intro acc h
    simp only [List.foldl_cons] at h
    cases hacc : acc with
    | some b =>
      subst hacc
      cases hx : r.total_time with
      | none =>
        simp only [hx, device_total_keep] at h
        exact Or.inl h
      | some v =>
        simp only [hx, device_total_keep] at h
        exact Or.inl h
    | none =>
      subst hacc
      cases hx : r.total_time with
      | none =>
        simp only [hx] at h
        rcases ih none h with h' | ⟨s, hs, hts⟩
        · simp at h'
        · exact Or.inr ⟨s, List.mem_cons_of_mem r hs, hts⟩
      | some v =>
        simp only [hx, device_total_keep] at h
        exact Or.inr ⟨r, List.mem_cons_self r t, hx.trans h⟩

lemma last_remark_none_iff (l : List PunchRecord) :
    ∀ acc : Option String,
      l.foldl (fun acc r => match r.remark with
        | some s => some s
        | none => acc) acc = none ↔ (acc = none ∧ ∀ r ∈ l, r.remark = none) := by
  induction l with
  | nil => intro acc; simp
  | cons r t ih =>
    intro acc
    simp only [List.foldl_cons]
    cases hx : r.remark with
    | none =>
      simp only [hx]
      rw [ih acc]
      constructor
      · rintro ⟨h1, h2⟩
        refine ⟨h1, fun s hs => ?_⟩
        rcases List.mem_cons.mp hs with h' | h'
        · subst h'; exact hx
        · exact h2 s h'
      · rintro ⟨h1, h2⟩
        exact ⟨h1, fun s hs => h2 s (List.mem_cons_of_mem r hs)⟩
    | some v =>
      simp only [hx]
      rw [ih (some v)]
      constructor
      · rintro ⟨h1, -⟩; simp at h1
      · rintro ⟨-, h2⟩
        have := h2 r (List.mem_cons_self r t)
        rw [hx] at this
        simp at this

lemma last_remark_some_mem (l : List PunchRecord) (a : String) :
    ∀ acc : Option String,
      l.foldl (fun acc r => match r.remark with
        | some s => some s
        | none => acc) acc = some a →
      acc = some a ∨ ∃ r ∈ l, r.remark = some a := by
  induction l with
  | nil => intro acc h; exact Or.inl h
  | cons r t ih =>
    intro acc h
    simp only [List.foldl_cons] at h
    cases hx : r.remark with
    | none =>
      simp only [hx] at h
      rcases ih acc h with h' | ⟨s, hs, hrs⟩
      · exact Or.inl h'
      · exact Or.inr ⟨s, List.mem_cons_of_mem r hs, hrs⟩
    | some v =>
      simp only [hx] at h
      rcases ih (some v) h with h' | ⟨s, hs, hrs⟩
      · exact Or.inr ⟨r, List.mem_cons_self r t, hx.trans h'⟩
      · exact Or.inr ⟨s, List.mem_cons_of_mem r hs, hrs⟩

lemma device_total_perm {l₁ l₂ : List PunchRecord} (hp : l₁.Perm l₂)
    (ht : ∀ r ∈ l₁, ∀ s ∈ l₁, r.total_time = none ∨ s.total_time = none ∨
      r.total_time = s.total_time) :
    device_total l₁ = device_total l₂ := by
  cases hx : device_total l₁ with
  | none =>
    rw [device_total_none_iff] at hx
    rw [eq_comm, device_total_none_iff]
    exact fun r hr => hx r (hp.mem_iff.mpr hr)
  | some a =>
    rcases device_total_some_mem l₁ a none hx with h | ⟨r, hr, hrt⟩
    · simp at h
    · cases hy : device_total l₂ with
      | none =>
        rw [device_total_none_iff] at hy
        have := hy r (hp.mem_iff.mp hr)
        rw [this] at hrt
        simp at hrt
      | some b =>
        rcases device_total_some_mem l₂ b none hy with h | ⟨s, hs, hst⟩
        · simp at h
        · have hs₁ : s ∈ l₁ := hp.mem_iff.mpr hs
          rcases ht r hr s hs₁ with h | h | h
          · rw [h] at hrt; simp at hrt
          · rw [h] at hst; simp at hst
          · rw [hrt, hst] at h
            simp only [Option.some.injEq] at h
            rw [h]

lemma last_remark_perm {l₁ l₂ : List PunchRecord} (hp : l₁.Perm l₂)
    (hr : ∀ r ∈ l₁, ∀ s ∈ l₁, r.remark = none ∨ s.remark = none ∨
      r.remark = s.remark) :
    last_remark l₁ = last_remark l₂ := by
  cases hx : last_remark l₁ with
  | none =>
    unfold last_remark at hx ⊢
    rw [last_remark_none_iff] at hx
    rw [eq_comm, last_remark_none_iff]
    exact ⟨rfl, fun r hrr => hx.2 r (hp.mem_iff.mpr hrr)⟩
  | some a =>
    rcases last_remark_some_mem l₁ a none hx with h | ⟨r, hrr, hrt⟩
    · simp at h
    · cases hy : last_remark l₂ with
      | none =>
        unfold last_remark at hy
        rw [last_remark_none_iff] at hy
        have := hy.2 r (hp.mem_iff.mp hrr)
        rw [this] at hrt
        simp at hrt
      | some b =>
        rcases last_remark_some_mem l₂ b none hy with h | ⟨s, hs, hst⟩
        · simp at h
        · have hs₁ : s ∈ l₁ := hp.mem_iff.mpr hs
          rcases hr r hrr s hs₁ with h | h | h
          · rw [h] at hrt; simp at hrt
          · rw [h] at hst; simp at hst
          · rw [hrt, hst] at h
            simp only [Option.some.injEq] at h
            rw [h]

lemma device_total_first (l1 l2 : List PunchRecord) (r : PunchRecord) (t : ℕ)
    (h1 : ∀ s ∈ l1, s.total_time = none) (h2 : r.total_time = some t) :
    device_total (l1 ++ r :: l2) = some t := by
  unfold device_total
  induction l1 with
  | nil => simp only [List.nil_append, List.foldl_cons, h2, device_total_keep]
  | cons s t1 ih =>
    have hs := h1 s (List.mem_cons_self s t1)
    simp only [List.cons_append, List.foldl_cons, hs]
    exact ih (fun x hx => h1 x (List.mem_cons_of_mem s hx))

/-! The claims. -/

/-- C1: with no device-reported total, the daily total office minutes equals
the greedy pairing result described by the specification: sort both lists
ascending, bind each IN in order to the earliest unused OUT strictly
greater than it, unmatched INs contribute 0, and the total is the sum of
(out - in) minutes over matched pairs; in particular IN [09:00, 09:30]
with OUT [12:00, 13:00] gives 390 minutes. -/
theorem claim_C1_greedy_pairing (day_records : List PunchRecord)
    (h : device_total day_records = none) (in_times out_times : List ℕ) :
    (calculate_day_summary day_records).total_office_minutes =
      greedy_total (day_records.filterMap fun r => r.in_time)
        (day_records.filterMap fun r => r.out_time) ∧
    calculate_from_pairs in_times out_times = greedy_total in_times out_times ∧
    greedy_total [540, 570] [720, 780] = 390 ∧
    greedy_pairs [540, 570] [720, 780] = [(540, 720), (570, 780)] := by
  refine ⟨?_, calculate_from_pairs_eq_greedy_total in_times out_times, by decide, by decide⟩
  have hT : (calculate_day_summary day_records).total_office_minutes =
      calculate_from_pairs (day_records.filterMap fun r => r.in_time)
        (day_records.filterMap fun r => r.out_time) := by
    simp only [calculate_day_summary, h]
  rw [hT, calculate_from_pairs_eq_greedy_total]

theorem claim_C1_witness :
    device_total [PunchRecord.mk (some 540) (some 720) none none,
      PunchRecord.mk (some 570) (some 780) none none] = none ∧
    ((calculate_day_summary [PunchRecord.mk (some 540) (some 720) none none,
        PunchRecord.mk (some 570) (some 780) none none]).total_office_minutes =
      greedy_total [540, 570] [720, 780] ∧
     calculate_from_pairs [540, 570] [720, 780] = greedy_total [540, 570] [720, 780] ∧
     greedy_total [540, 570] [720, 780] = 390 ∧
     greedy_pairs [540, 570] [720, 780] = [(540, 720), (570, 780)]) := by
  refine ⟨by decide, ?_⟩
  have h := claim_C1_greedy_pairing
    [PunchRecord.mk (some 540) (some 720) none none,
     PunchRecord.mk (some 570) (some 780) none none] (by decide) [540, 570] [720, 780]
  simpa using h

/-- C2: the daily status is PRESENT exactly when the total office minutes
reach 360 (the 6-hour minimum), ABSENT exactly otherwise, and the daily
aggregator never yields PARTIAL. -/
theorem claim_C2_status_rule (day_records : List PunchRecord) :
    ((calculate_day_summary day_records).status = Status.PRESENT ↔
      360 ≤ (calculate_day_summary day_records).total_office_minutes) ∧
    ((calculate_day_summary day_records).status = Status.ABSENT ↔
      (calculate_day_summary day_records).total_office_minutes < 360) ∧
    (calculate_day_summary day_records).status ≠ Status.PARTIAL := by
  have hs : (calculate_day_summary day_records).status =
      if 360 ≤ (calculate_day_summary day_records).total_office_minutes then
        Status.PRESENT else Status.ABSENT := rfl
  by_cases h : 360 ≤ (calculate_day_summary day_records).total_office_minutes
  · rw [hs, if_pos h]
    exact ⟨by simp [h], ⟨fun hc => by simp at hc, fun hc => absurd h (by omega)⟩, by simp⟩
  · rw [hs, if_neg h]
    exact ⟨⟨fun hc => by simp at hc, fun hc => absurd hc h⟩,
      ⟨fun _ => by omega, fun _ => rfl⟩, by simp⟩

/-- C3: the compliance classifier is a pure function of the percentage and
the two configured thresholds, mapping below-red to RED, red-to-amber
inclusive to AMBER and above-amber to GREEN; the time-calculator copy
equals it at the default thresholds 70 and 90, under which 67.71 is RED,
72.92 is AMBER and 100.00 is GREEN. -/
theorem claim_C3_compliance_classifier (red amber p : ℚ) (h : red ≤ amber) :
    (p < red → config_get_status_color red amber p = Color.RED) ∧
    (red ≤ p → p ≤ amber → config_get_status_color red amber p = Color.AMBER) ∧
    (amber < p → config_get_status_color red amber p = Color.GREEN) ∧
    (∀ q : ℚ, get_status_color q = config_get_status_color 70 90 q) ∧
    config_get_status_color 70 90 (67.71 : ℚ) = Color.RED ∧
    config_get_status_color 70 90 (72.92 : ℚ) = Color.AMBER ∧
    config_get_status_color 70 90 (100 : ℚ) = Color.GREEN := by
  refine ⟨?_, ?_, ?_, ?_, ?_, ?_, ?_⟩
  · intro hp
    unfold config_get_status_color
    rw [if_pos hp]
  · intro h1 h2
    unfold config_get_status_color
    rw [if_neg (by linarith), if_pos h2]
  · intro hp
    unfold config_get_status_color
    rw [if_neg (by linarith), if_neg (by linarith)]
  · intro q
    rfl
  · norm_num [config_get_status_color]
  · norm_num [config_get_status_color]
  · norm_num [config_get_status_color]

theorem claim_C3_witness :
    ((70 : ℚ) ≤ 90) ∧ config_get_status_color 70 90 (67.71 : ℚ) = Color.RED :=
  ⟨by norm_num, (claim_C3_compliance_classifier 70 90 (67.71 : ℚ) (by norm_num)).2.2.2.2.1⟩

/-- C5: when any punch of the day carries a device-reported total, that
value is the day's total office minutes, the display pairs are still
computed from the IN/OUT lists, and the first non-empty device total
encountered wins with later ones ignored. -/
theorem claim_C5_device_total_wins (day_records : List PunchRecord) (t : ℕ)
    (h : device_total day_records = some t) :
    (calculate_day_summary day_records).total_office_minutes = (t : ℤ) ∧
    (calculate_day_summary day_records).in_out_pairs =
      create_pairs (day_records.filterMap fun r => r.in_time)
        (day_records.filterMap fun r => r.out_time) ∧
    (∀ (l1 l2 : List PunchRecord) (r : PunchRecord),
      (∀ s ∈ l1, s.total_time = none) → r.total_time = some t →
      device_total (l1 ++ r :: l2) = some t) := by
  refine ⟨?_, rfl, fun l1 l2 r h1 h2 => device_total_first l1 l2 r t h1 h2⟩
  simp only [calculate_day_summary, h, time_to_minutes]

theorem claim_C5_witness :
    device_total [PunchRecord.mk (some 540) (some 720) (some 450) none] = some 450 ∧
    ((calculate_day_summary [PunchRecord.mk (some 540) (some 720) (some 450) none]).total_office_minutes
        = (450 : ℤ) ∧
     (calculate_day_summary [PunchRecord.mk (some 540) (some 720) (some 450) none]).in_out_pairs =
       create_pairs [540] [720] ∧
     (∀ (l1 l2 : List PunchRecord) (r : PunchRecord),
       (∀ s ∈ l1, s.total_time = none) → r.total_time = some 450 →
       device_total (l1 ++ r :: l2) = some 450)) := by
  refine ⟨by decide, ?_⟩
  have h := claim_C5_device_total_wins
    [PunchRecord.mk (some 540) (some 720) (some 450) none] 450 (by decide)
  simpa using h

/-- C7 divergence witness: at a percentage of exactly 90 the per-day display
colouring of ReportGenerator.get_individual_report yields GREEN while the
compliance classifier (both the config and the time-calculator copy, at
the default thresholds 70/90) yields AMBER, so the per-day consumer does
not agree with the single classifier. -/
theorem claim_C7_per_day_color_diverges :
    daily_status_color 90 = Color.GREEN ∧
    get_status_color 90 = Color.AMBER ∧
    config_get_status_color 70 90 90 = Color.AMBER ∧
    daily_status_color 90 ≠ get_status_color 90 := by
  refine ⟨?_, ?_, ?_, ?_⟩
  · norm_num [daily_status_color]
  · norm_num [get_status_color]
  · norm_num [config_get_status_color]
  · norm_num [daily_status_color, get_status_color]
    decide

/-- C9: the pairing total is non-negative on every input, including lists
where no pair matches at all, and every matched greedy pair has its OUT
strictly after its IN (the implementation discards any candidate pair
whose computed duration is not positive). -/
theorem claim_C9_nonnegative_total (in_times out_times : List ℕ) :
    0 ≤ calculate_from_pairs in_times out_times ∧
    ∀ p ∈ greedy_pairs (in_times.insertionSort (· ≤ ·))
      (out_times.insertionSort (· ≤ ·)), p.1 < p.2 := by
  constructor
  · rw [calculate_from_pairs_eq_greedy_total]
    unfold greedy_total
    apply List.sum_nonneg
    intro x hx
    simp only [List.mem_map] at hx
    obtain ⟨q, hq, rfl⟩ := hx
    have := greedy_pairs_mem_lt _ _ q hq
    omega
  · intro p hp
    exact greedy_pairs_mem_lt _ _ p hp

theorem claim_C9_witness :
    (0 ≤ calculate_from_pairs [600, 700] [100, 200] ∧
     ∀ p ∈ greedy_pairs (([600, 700] : List ℕ).insertionSort (· ≤ ·))
       (([100, 200] : List ℕ).insertionSort (· ≤ ·)), p.1 < p.2) ∧
    greedy_pairs (([600, 700] : List ℕ).insertionSort (· ≤ ·))
      (([100, 200] : List ℕ).insertionSort (· ≤ ·)) = [] ∧
    (540, 720) ∈ greedy_pairs (([540] : List ℕ).insertionSort (· ≤ ·))
      (([720] : List ℕ).insertionSort (· ≤ ·)) ∧
    (540, 720).1 < (540, 720).2 :=
  ⟨claim_C9_nonnegative_total [600, 700] [100, 200], by decide, by decide,
   (claim_C9_nonnegative_total [540] [720]).2 (540, 720) (by decide)⟩

lemma week_totals_go (ws we : ℕ) (days : List (ℕ × DailySummary)) :
    ∀ acc : ℤ × ℕ,
      days.foldl
        (fun acc d =>
          if ws ≤ d.1 ∧ d.1 ≤ we then
            (acc.1 + d.2.total_office_minutes,
             if d.2.status = Status.PRESENT ∨ d.2.status = Status.PARTIAL then
               acc.2 + 1
             else acc.2)
          else acc) acc =
      (acc.1 + ((days.filter fun d => ws ≤ d.1 ∧ d.1 ≤ we).map
          fun d => d.2.total_office_minutes).sum,
       acc.2 + (days.filter fun d => ws ≤ d.1 ∧ d.1 ≤ we).countP
          fun d => d.2.status = Status.PRESENT ∨ d.2.status = Status.PARTIAL) := by
  induction days with
  | nil => intro acc; simp
  | cons d t ih =>
    intro acc
    by_cases hd : ws ≤ d.1 ∧ d.1 ≤ we
    · by_cases hst : d.2.status = Status.PRESENT ∨ d.2.status = Status.PARTIAL
      · rw [List.foldl_cons, if_pos hd, if_pos hst, ih,
          List.filter_cons_of_pos (by simpa using hd), List.map_cons, List.sum_cons,
          List.countP_cons_of_pos _ _ (by simpa using hst)]
        simp only [Prod.mk.injEq]
        constructor <;> (dsimp only; omega)
      · rw [List.foldl_cons, if_pos hd, if_neg hst, ih,
          List.filter_cons_of_pos (by simpa using hd), List.map_cons, List.sum_cons,
          List.countP_cons_of_neg _ _ (by simpa using hst)]
        simp only [Prod.mk.injEq]
        constructor
        · dsimp only
          omega
        · dsimp only
    · rw [List.foldl_cons, if_neg hd, ih,
        List.filter_cons_of_neg (by simpa using hd)]

lemma week_totals_spec (days : List (ℕ × DailySummary)) (ws we : ℕ) :
    week_totals days ws we =
      (((days.filter fun d => ws ≤ d.1 ∧ d.1 ≤ we).map
          fun d => d.2.total_office_minutes).sum,
       (days.filter fun d => ws ≤ d.1 ∧ d.1 ≤ we).countP
          fun d => d.2.status = Status.PRESENT ∨ d.2.status = Status.PARTIAL) := by
  unfold week_totals
  rw [week_totals_go ws we days (0, 0)]
  simp

/-- C4: over the restricted window, the weekly summary's total is the sum of
daily totals, the office-day count is the number of PRESENT/PARTIAL days,
expected minutes are office-days times expected hours times 60, the
unrounded compliance is total over expected times 100 when expected is
positive and exactly 0 otherwise, the stored percentage rounds it to two
decimals, the status classifies the unrounded value, and compliance is not
capped at 100. -/
theorem claim_C4_weekly_aggregation (days : List (ℕ × DailySummary)) (ws we ehpd : ℕ) :
    ((calculate_weekly_summary_emp days ws we ehpd).total_office_minutes =
      ((days.filter fun d => ws ≤ d.1 ∧ d.1 ≤ we).map
        fun d => d.2.total_office_minutes).sum) ∧
    ((calculate_weekly_summary_emp days ws we ehpd).wfo_days =
      (days.filter fun d => ws ≤ d.1 ∧ d.1 ≤ we).countP
        fun d => d.2.status = Status.PRESENT ∨ d.2.status = Status.PARTIAL) ∧
    ((calculate_weekly_summary_emp days ws we ehpd).expected_minutes =
      (calculate_weekly_summary_emp days ws we ehpd).wfo_days * ehpd * 60) ∧
    (weekly_compliance days ws we ehpd =
      if 0 < (calculate_weekly_summary_emp days ws we ehpd).expected_minutes then
        ((calculate_weekly_summary_emp days ws we ehpd).total_office_minutes : ℚ) /
          ((calculate_weekly_summary_emp days ws we ehpd).expected_minutes : ℚ) * 100
      else 0) ∧
    ((calculate_weekly_summary_emp days ws we ehpd).compliance_percentage =
      round2 (weekly_compliance days ws we ehpd)) ∧
    ((calculate_weekly_summary_emp days ws we ehpd).status =
      get_status_color (weekly_compliance days ws we ehpd)) ∧
    (100 : ℚ) < weekly_compliance
      [(0, DailySummary.mk 960 Status.PRESENT none none [] none)] 0 6 4 := by
  refine ⟨?_, ?_, rfl, rfl, rfl, rfl, by norm_num [weekly_compliance, week_totals]⟩
  · show (week_totals days ws we).1 = _
    rw [week_totals_spec]
  · show (week_totals days ws we).2 = _
    rw [week_totals_spec]

lemma week_totals_outside (days : List (ℕ × DailySummary)) (ws we : ℕ)
    (h : ∀ d ∈ days, ¬(ws ≤ d.1 ∧ d.1 ≤ we)) :
    week_totals days ws we = (0, 0) := by
  rw [week_totals_spec, List.filter_eq_nil_iff.mpr (by simpa using h)]
  simp

/-- C10: every employee present in the daily-summaries map receives a
WeeklySummary even when none of their days fall inside the window; that
summary then has zero total, zero office days, zero expected minutes, zero
compliance and status RED. -/
theorem claim_C10_empty_window (emps : List (String × List (ℕ × DailySummary)))
    (ws we ehpd : ℕ) (c : String) (ds : List (ℕ × DailySummary))
    (hmem : (c, ds) ∈ emps) (hout : ∀ d ∈ ds, ¬(ws ≤ d.1 ∧ d.1 ≤ we)) :
    (c, WeeklySummary.mk ws we 0 0 0 0 Color.RED) ∈
      calculate_weekly_summary emps ws we ehpd := by
  have hz : calculate_weekly_summary_emp ds ws we ehpd =
      WeeklySummary.mk ws we 0 0 0 0 Color.RED := by
    have h0 : week_totals ds ws we = (0, 0) := week_totals_outside ds ws we hout
    simp only [calculate_weekly_summary_emp, weekly_compliance, h0]
    norm_num [round2, get_status_color]
  have : (c, calculate_weekly_summary_emp ds ws we ehpd) ∈
      calculate_weekly_summary emps ws we ehpd := by
    unfold calculate_weekly_summary
    exact List.mem_map_of_mem _ hmem
  rwa [hz] at this

theorem claim_C10_witness :
    (("E1", [((5 : ℕ), DailySummary.mk 480 Status.PRESENT none none [] none)]) ∈
      ([("E1", [((5 : ℕ), DailySummary.mk 480 Status.PRESENT none none [] none)])] :
        List (String × List (ℕ × DailySummary)))) ∧
    (∀ d ∈ [((5 : ℕ), DailySummary.mk 480 Status.PRESENT none none [] none)],
      ¬((10 : ℕ) ≤ d.1 ∧ d.1 ≤ 16)) ∧
    ("E1", WeeklySummary.mk 10 16 0 0 0 0 Color.RED) ∈
      calculate_weekly_summary
        [("E1", [((5 : ℕ), DailySummary.mk 480 Status.PRESENT none none [] none)])] 10 16 8 := by
  refine ⟨by simp, by decide, ?_⟩
  exact claim_C10_empty_window
    [("E1", [((5 : ℕ), DailySummary.mk 480 Status.PRESENT none none [] none)])]
    10 16 8 "E1" [((5 : ℕ), DailySummary.mk 480 Status.PRESENT none none [] none)]
    (by simp) (by decide)

/-- C6 counterexample: two punches that both carry a device-reported total
(420 and 480 minutes) produce different DailySummary values under the two
orders, because the first non-empty device total wins; so the summary is
not a function of the punch multiset alone. -/
theorem claim_C6_counterexample :
    ([PunchRecord.mk none none (some 420) none,
      PunchRecord.mk none none (some 480) none] : List PunchRecord).Perm
      [PunchRecord.mk none none (some 480) none,
       PunchRecord.mk none none (some 420) none] ∧
    calculate_day_summary
        [PunchRecord.mk none none (some 420) none,
         PunchRecord.mk none none (some 480) none] ≠
      calculate_day_summary
        [PunchRecord.mk none none (some 480) none,
         PunchRecord.mk none none (some 420) none] := by
  constructor
  · decide
  · decide

/-- C6 amended: the DailySummary is invariant under permutation of the
day's punch list provided any two non-empty device totals among the
punches agree and any two non-empty remarks agree (in particular whenever
at most one punch carries each); without that proviso the first-total-wins
and last-remark-wins folds are order-sensitive, as the counterexample
shows.  The pairing-derived parts need no proviso. -/
theorem claim_C6_perm_invariant (l₁ l₂ : List PunchRecord) (hp : l₁.Perm l₂)
    (ht : ∀ r ∈ l₁, ∀ s ∈ l₁, r.total_time = none ∨ s.total_time = none ∨
      r.total_time = s.total_time)
    (hr : ∀ r ∈ l₁, ∀ s ∈ l₁, r.remark = none ∨ s.remark = none ∨
      r.remark = s.remark) :
    calculate_day_summary l₁ = calculate_day_summary l₂ := by
  have hi : (l₁.filterMap fun r => r.in_time).Perm (l₂.filterMap fun r => r.in_time) :=
    hp.filterMap _
  have ho : (l₁.filterMap fun r => r.out_time).Perm (l₂.filterMap fun r => r.out_time) :=
    hp.filterMap _
  have hdt : device_total l₁ = device_total l₂ := device_total_perm hp ht
  have hrem : last_remark l₁ = last_remark l₂ := last_remark_perm hp hr
  have hcfp := calculate_from_pairs_perm hi ho
  have hcp := create_pairs_perm hi ho
  have hmin := min?_perm hi
  have hmax := max?_perm ho
  simp only [calculate_day_summary]
  rw [hdt, hrem, hcfp, hcp, hmin, hmax]

theorem claim_C6_witness :
    ([PunchRecord.mk (some 540) (some 720) none none,
      PunchRecord.mk (some 800) (some 900) none none] : List PunchRecord).Perm
      [PunchRecord.mk (some 800) (some 900) none none,
       PunchRecord.mk (some 540) (some 720) none none] ∧
    calculate_day_summary
        [PunchRecord.mk (some 540) (some 720) none none,
         PunchRecord.mk (some 800) (some 900) none none] =
      calculate_day_summary
        [PunchRecord.mk (some 800) (some 900) none none,
         PunchRecord.mk (some 540) (some 720) none none] := by
  refine ⟨by decide, ?_⟩
  exact claim_C6_perm_invariant
    [PunchRecord.mk (some 540) (some 720) none none,
     PunchRecord.mk (some 800) (some 900) none none]
    [PunchRecord.mk (some 800) (some 900) none none,
     PunchRecord.mk (some 540) (some 720) none none]
    (by decide) (by decide) (by decide)

/-- C8: get_week_bounds maps a date to the Monday on or before it and that
Monday plus six days; get_all_weeks returns exactly the distinct week
bounds of the input dates, sorted, without duplicates, invariantly under
permutation of the input; and 2024-05-15 falls in the week 2024-05-13 to
2024-05-19. -/
theorem claim_C8_week_partition (dates dates' : List ℕ) (d : ℕ)
    (hd : 1 ≤ d) (hperm : dates.Perm dates') :
    ((get_week_bounds d).2 = (get_week_bounds d).1 + 6 ∧
     (get_week_bounds d).1 ≤ d ∧ d ≤ (get_week_bounds d).2 ∧
     weekday (get_week_bounds d).1 = 0 ∧
     (∀ m, weekday m = 0 → m ≤ d → m ≤ (get_week_bounds d).1)) ∧
    (∀ p, p ∈ get_all_weeks dates ↔ ∃ x ∈ dates, get_week_bounds x = p) ∧
    List.Sorted pair_le (get_all_weeks dates) ∧
    (get_all_weeks dates).Nodup ∧
    get_all_weeks dates = get_all_weeks dates' ∧
    get_week_bounds (to_ordinal 2024 5 15) =
      (to_ordinal 2024 5 13, to_ordinal 2024 5 19) := by
  refine ⟨⟨rfl, ?_, ?_, ?_, ?_⟩, ?_, ?_, ?_, ?_, by decide⟩
  · simp only [get_week_bounds, weekday]
    omega
  · simp only [get_week_bounds, weekday]
    omega
  · simp only [get_week_bounds, weekday]
    omega
  · intro m hm hmd
    simp only [weekday] at hm
    simp only [get_week_bounds, weekday]
    omega
  · intro p
    simp [get_all_weeks, List.mem_insertionSort, List.mem_dedup, List.mem_map]
  · exact List.sorted_insertionSort pair_le _
  · exact ((List.perm_insertionSort pair_le _).symm).nodup (List.nodup_dedup _)
  · refine List.eq_of_perm_of_sorted ?_
      (List.sorted_insertionSort pair_le _) (List.sorted_insertionSort pair_le _)
    exact ((List.perm_insertionSort pair_le _).trans
      ((hperm.map get_week_bounds).dedup)).trans (List.perm_insertionSort pair_le _).symm

theorem claim_C8_witness :
    (1 : ℕ) ≤ 739021 ∧ ([739021, 5] : List ℕ).Perm [5, 739021] ∧
    (((get_week_bounds 739021).2 = (get_week_bounds 739021).1 + 6 ∧
      (get_week_bounds 739021).1 ≤ 739021 ∧ 739021 ≤ (get_week_bounds 739021).2 ∧
      weekday (get_week_bounds 739021).1 = 0 ∧
      (∀ m, weekday m = 0 → m ≤ 739021 → m ≤ (get_week_bounds 739021).1)) ∧
     (∀ p, p ∈ get_all_weeks [739021, 5] ↔ ∃ x ∈ ([739021, 5] : List ℕ),
        get_week_bounds x = p) ∧
     List.Sorted pair_le (get_all_weeks [739021, 5]) ∧
     (get_all_weeks [739021, 5]).Nodup ∧
     get_all_weeks [739021, 5] = get_all_weeks [5, 739021] ∧
     get_week_bounds (to_ordinal 2024 5 15) =
       (to_ordinal 2024 5 13, to_ordinal 2024 5 19)) :=
  ⟨by decide, by decide,
   claim_C8_week_partition [739021, 5] [5, 739021] 739021 (by decide) (by decide)⟩
